import Mathlib

/-!
Shallow embedding of the NoGo solver (Go-For-Dummies/Assignment2):
the negamax search of `gtp_connection.py` and the Zobrist-style
transposition table of `transposition_table.py`, together with the
board-model contract they consume.

The board model (`simple_board.py`, `board_util.py`) and the heuristic
evaluator (`heuristic.py`) are not part of the provided sources; those
pieces are modelled from the specification and marked as such in their
doc comments.  Everything else is translated from the Python source.
-/

/-- Modelled from the spec: `board_util.py` is absent from the sources.
Color codes follow the docstring of `transposition_table.py`
("black==1 or white==2") and the spec data model (empty, black, white,
border-sentinel). -/
def EMPTY : Nat := 0

/-- Modelled from the spec: black stone color code (board_util.BLACK). -/
def BLACK : Nat := 1

/-- Modelled from the spec: white stone color code (board_util.WHITE). -/
def WHITE : Nat := 2

/-- Modelled from the spec: border sentinel color code (board_util.BORDER). -/
def BORDER : Nat := 3

namespace GoBoardUtil

/-- Modelled from the spec: `GoBoardUtil.opponent` of the absent
`board_util.py` — swaps black and white. -/
def opponent (c : Nat) : Nat := if c = BLACK then WHITE else BLACK

end GoBoardUtil

/-- Modelled from the spec: `coord_to_point(row, col, boardsize)` of the
absent `board_util.py`.  Its inverse `point_to_coord` in
`gtp_connection.py` is `divmod(point, NS)` with `NS = boardsize + 1`,
so a 1-based `(row, col)` maps to the flat point `row * NS + col`. -/
def coord_to_point (row col boardsize : Nat) : Nat := row * (boardsize + 1) + col

/-- Modelled from the spec: the board state consumed by the solver
(spec section 4.1) — a grid of cell colors plus whose turn it is.
`grid` stores the `size * size` interior cells row-major (0-based);
moves and `get_color` use the source's flat point encoding with border
sentinels implied by the coordinate range check. -/
structure Position where
  size : Nat
  grid : List Nat
  current_player : Nat
deriving DecidableEq, Repr

namespace Position

/-- Interior cell color at 0-based row `i`, column `j`. -/
def colorAt1 (b : Position) (i j : Nat) : Nat := b.grid.getD (i * b.size + j) EMPTY

/-- `board.pt(r, c)` for 1-based coordinates: the flat point encoding. -/
def pt (b : Position) (r c : Nat) : Nat := coord_to_point r c b.size

/-- Modelled from the spec: `board.get_color(point)` — the color of a
flat point; out-of-range rows/columns are the border sentinel. -/
def get_color (b : Position) (p : Nat) : Nat :=
  let ns := b.size + 1
  let r := p / ns
  let c := p % ns
  if 1 ≤ r ∧ r ≤ b.size ∧ 1 ≤ c ∧ c ≤ b.size then b.colorAt1 (r - 1) (c - 1) else BORDER

/-- Modelled from the spec: `board.get_empty_points()` — all unoccupied
interior points, in ascending flat-point (row-major) order. -/
def get_empty_points (b : Position) : List Nat :=
  (List.range ((b.size + 2) * (b.size + 1))).filter (fun p => b.get_color p == EMPTY)

/-- Write `color` into the interior cell addressed by flat point `p`. -/
def setColor (b : Position) (p color : Nat) : Position :=
  let ns := b.size + 1
  let r := p / ns
  let c := p % ns
  { b with grid := b.grid.set ((r - 1) * b.size + (c - 1)) color }

/-- The four orthogonal neighbor points of `p` in the flat encoding. -/
def neighborsOf (b : Position) (p : Nat) : List Nat :=
  [p - (b.size + 1), p - 1, p + 1, p + (b.size + 1)]

end Position

/-- Fuel-bounded flood fill collecting the connected same-color group;
`frontier` is the worklist, `acc` the group found so far. -/
def groupFlood (b : Position) (color : Nat) : Nat → List Nat → List Nat → List Nat
  | 0, _, acc => acc
  | _ + 1, [], acc => acc
  | fuel + 1, p :: rest, acc =>
    if acc.contains p then groupFlood b color fuel rest acc
    else if b.get_color p == color then
      groupFlood b color fuel (b.neighborsOf p ++ rest) (acc ++ [p])
    else groupFlood b color fuel rest acc

namespace Position

/-- The connected group of `color` stones containing point `p`. -/
def groupOf (b : Position) (color p : Nat) : List Nat :=
  groupFlood b color ((b.size + 2) * (b.size + 2) * 8) [p] []

/-- Whether the group of `color` stones through `p` has an empty
orthogonal neighbor (a liberty). -/
def hasLiberty (b : Position) (color p : Nat) : Bool :=
  (b.groupOf color p).any (fun q => (b.neighborsOf q).any (fun t => b.get_color t == EMPTY))

/-- Modelled from the spec: `board.play_move(point, color)` of the absent
`simple_board.py`, per spec section 4.1 and the glossary: placing on an
empty cell is legal iff it does not leave the mover's connected group
with zero liberties (NoGo: no captures, suicide illegal); an illegal
attempt raises ValueError and leaves the board unchanged, modelled as
`none`; a legal move places the stone and passes the turn. -/
def play_move (b : Position) (p color : Nat) : Option Position :=
  if b.get_color p == EMPTY then
    let b1 := b.setColor p color
    if b1.hasLiberty color p then
      some { b1 with current_player := GoBoardUtil.opponent color }
    else none
  else none

/-- Modelled from the spec: `board.undo_move(point, color)` — exact
inverse of `play_move`: empties the cell and restores the turn. -/
def undo_move (b : Position) (p color : Nat) : Position :=
  { b.setColor p EMPTY with current_player := color }

end Position

/-- Transposition entry: `(isWin, move)` with move `0` meaning no move. -/
abbrev Entry := Bool × Nat

/-- The transposition table of `transposition_table.py`: per-cell random
constants (`zobrist_table`, drawn once per table, kept abstract as a
flat list) and the `code -> entry` dictionary, modelled as an
association list where `store` prepends and `lookup` takes the newest
binding — the Python dict's overwrite semantics. -/
structure TranspositionTable where
  board_size : Nat
  zobrist_table : List Nat
  table : List (Nat × Entry)
deriving DecidableEq, Repr

namespace TranspositionTable

/-- The random constant for 0-based cell `(i, j)`. -/
def zobristAt (tt : TranspositionTable) (i j : Nat) : Nat :=
  tt.zobrist_table.getD (i * tt.board_size + j) 0

/-- `TranspositionTable.code(board)`: XOR over all cells whose color is
neither EMPTY nor BORDER of `zobrist_table[i, j] * color`, scanning
`board.pt(i+1, j+1)` for `i, j` in `range(board_size)`. -/
def code (tt : TranspositionTable) (b : Position) : Nat :=
  (List.range tt.board_size).foldl
    (fun c i =>
      (List.range tt.board_size).foldl
        (fun c j =>
          let color := b.get_color (b.pt (i + 1) (j + 1))
          if color ≠ EMPTY ∧ color ≠ BORDER then c ^^^ (tt.zobristAt i j * color) else c)
        c)
    0

/-- Modelled from the spec: `TranspositionTable.code_2d(grid)` is called
from `gtp_connection.py` but absent from the provided
`transposition_table.py`; spec section 4.2: the identical computation
taking an arbitrary 2D color grid instead of a Position. -/
def code_2d (tt : TranspositionTable) (g : List (List Nat)) : Nat :=
  (List.range tt.board_size).foldl
    (fun c i =>
      (List.range tt.board_size).foldl
        (fun c j =>
          let color := (g.getD i []).getD j EMPTY
          if color ≠ EMPTY ∧ color ≠ BORDER then c ^^^ (tt.zobristAt i j * color) else c)
        c)
    0

/-- `TranspositionTable.lookup(code)`: the stored entry or `none`. -/
def lookup (tt : TranspositionTable) (code : Nat) : Option Entry :=
  (tt.table.find? (fun kv => kv.1 == code)).map (fun kv => kv.2)

/-- `TranspositionTable.store(code, data)`: the body is only
`self.table[code] = data` with no return statement, so the Python call
evaluates to `None`; the pair returned here is (updated table, value of
the call), the second component being that `None`. -/
def store (tt : TranspositionTable) (code : Nat) (data : Entry) :
    TranspositionTable × Option Entry :=
  ({ tt with table := (code, data) :: tt.table }, none)

end TranspositionTable

/-- Transpose of a square color grid. -/
def transposeG (g : List (List Nat)) : List (List Nat) :=
  (List.range g.length).map (fun j => g.map (fun row => row.getD j EMPTY))

/-- Quarter-turn rotation of a color grid. -/
def rot90 (g : List (List Nat)) : List (List Nat) :=
  (transposeG g).map List.reverse

/-- Mirror flip of a color grid. -/
def mirrorG (g : List (List Nat)) : List (List Nat) :=
  g.map List.reverse

namespace TTUtil

/-- Modelled from the spec: `TTUtil.symmetries(grid)` is imported and
called in `gtp_connection.py` but absent from the provided
`transposition_table.py`; spec section 4.3: the 8 dihedral transforms —
identity, rotate 90/180/270, and the same four after a mirror flip. -/
def symmetries (g : List (List Nat)) : List (List (List Nat)) :=
  [g, rot90 g, rot90 (rot90 g), rot90 (rot90 (rot90 g)),
   mirrorG g, rot90 (mirrorG g), rot90 (rot90 (mirrorG g)), rot90 (rot90 (rot90 (mirrorG g)))]

end TTUtil

namespace GoBoardUtil

/-- Modelled from the spec: `GoBoardUtil.get_twoD_board(board)` of the
absent `board_util.py` — the position's interior cells as a 2D color
grid; spec section 4.2 requires the Position-form and 2D-form
fingerprints to agree on it. -/
def get_twoD_board (b : Position) : List (List Nat) :=
  (List.range b.size).map (fun i => (List.range b.size).map (fun j => b.colorAt1 i j))

end GoBoardUtil

/-- Heuristic carry-state lists (the eye statistics), opaque to the
solver per spec section 3. -/
abbrev HS := List Int

/-- Modelled from the spec: `statisticaly_evaluate` of the absent
`heuristic.py`, spec section 4.5 — `full` is the from-scratch
evaluation `(board, color)`, `inc` the incremental re-scoring
`(board, color, lastMove, priorScore, priorState...)`; both are pure
score-plus-carry-state functions used only to rank moves. -/
structure Heuristic where
  full : Position → Nat → Int × HS × HS × HS × HS
  inc : Position → Nat → Nat → Int → HS → HS → HS → HS → Int × HS × HS × HS × HS

/-- A scored candidate as built at gtp_connection.py:480:
`(move, newweight, newbneyes, newwneyes, newbeyes, newweyes)`. -/
abbrev ScoredCand := Nat × Int × HS × HS × HS × HS

/-- The heuristic scoring pass of gtp_connection.py:475-480: each
candidate move is scored by incremental evaluation against the parent's
heuristic state (the source plays the move fast, evaluates and undoes;
the evaluation is pure, so it is modelled as scoring the move against
the pre-move board). -/
def scoreCands (H : Heuristic) (b : Position) (color : Nat) (w : Int)
    (bne wne be we : HS) (moves : List Nat) : List ScoredCand :=
  moves.map (fun m => (m, H.inc b color m w bne wne be we))

/-- One insertion step of the stable descending-by-score sort. -/
def insertDesc (x : ScoredCand) : List ScoredCand → List ScoredCand
  | [] => [x]
  | y :: ys => if x.2.1 < y.2.1 then y :: insertDesc x ys else x :: y :: ys

/-- `ordered_moves.sort(key=lambda weighted: -weighted[1])` of
gtp_connection.py:481: Python's list sort is stable and the key negates
the score, i.e. the stable sort by non-increasing score, modelled as a
stable insertion sort. -/
def sortCands : List ScoredCand → List ScoredCand
  | [] => []
  | x :: xs => insertDesc x (sortCands xs)

/-- A candidate handed to the search loop: the move, plus — in heuristic
mode — the child's score and heuristic carry state; `none` in plain
mode, where the recursive call falls back to its defaults. -/
abbrev Cand := Nat × Option (Int × HS × HS × HS × HS)

/-- Candidate construction of `negamax` (gtp_connection.py:471-481 and
497): in heuristic mode, score every candidate (evaluating from scratch
when `weight is None`) and stable-sort by descending score; otherwise
keep the empty-point enumeration order. -/
def mkCands (H : Heuristic) (hm : Bool) (b : Position) (color : Nat)
    (bneyes wneyes beyes weyes : HS) (weight : Option Int) (eps : List Nat) : List Cand :=
  if hm then
    let init :=
      match weight with
      | none => H.full b color
      | some w => (w, bneyes, wneyes, beyes, weyes)
    (sortCands (scoreCands H b color init.1 init.2.1 init.2.2.1 init.2.2.2.1 init.2.2.2.2 eps)).map
      (fun x => (x.1, some x.2))
  else eps.map (fun m => (m, none))

/-- The value a `negamax` call produces: `val v` is a normal Python
return (`v = none` is the `None` produced by `tt.store`, `v = some e` a
cached entry), `typeError` the uncaught TypeError raised by
subscripting a `None` recursive result, and `noFuel` the artificial
out-of-fuel marker of the embedding. -/
inductive NOut where
  | val : Option Entry → NOut
  | typeError : NOut
  | noFuel : NOut
deriving DecidableEq, Repr

/-- Result of a `negamax` call: its outcome, the board and table as the
call leaves them, and the final contents of this frame's own `bbl` and
`wbl` list objects (the in-place `append`s of the except handlers). -/
structure NegaRes where
  out : NOut
  board : Position
  tt : TranspositionTable
  bbl : List Nat
  wbl : List Nat
deriving DecidableEq, Repr

/-- Result of the candidate loop: an early `return` out of `negamax`, or
falling through to the final `tt.store(state_code, (False, 0))`. -/
inductive LoopRes where
  | ret : NOut → Position → TranspositionTable → List Nat → List Nat → LoopRes
  | done : Position → TranspositionTable → List Nat → List Nat → LoopRes
deriving DecidableEq, Repr

/-- The recursive call of the candidate loop: in heuristic mode
(gtp_connection.py:486) the child receives the candidate's heuristic
carry state and the negated score `-nw`; in plain mode
(gtp_connection.py:500) only `list(bbl)`, `list(wbl)` are passed and
the remaining parameters fall back to their defaults. -/
def childCall
    (child : Position → TranspositionTable → List Nat → List Nat →
      HS → HS → HS → HS → Option Int → NegaRes)
    (b1 : Position) (tt : TranspositionTable) (bbl wbl : List Nat) :
    Option (Int × HS × HS × HS × HS) → NegaRes
  | some (nw, bne, wne, be, we) => child b1 tt bbl wbl bne wne be we (some (-nw))
  | none => child b1 tt bbl wbl [] [] [] [] none

/-- The candidate loop of `negamax` (gtp_connection.py:483-494 and
497-508): try each candidate in order; an illegal `play_move`
(ValueError) appends the move to the mover's blacklist and continues; a
legal move recurses — subscripting a `None` child result raises
TypeError before the `undo_move` line, a child exception propagates —
then undoes the move and, on a win, returns `tt.store(state_code,
(True, move))`, whose value is `None`.  Recursive calls receive copies
`list(bbl)`, `list(wbl)`; their own appends are discarded here. -/
def negaLoop
    (child : Position → TranspositionTable → List Nat → List Nat →
      HS → HS → HS → HS → Option Int → NegaRes)
    (color state_code : Nat) :
    List Cand → Position → TranspositionTable → List Nat → List Nat → LoopRes
  | [], board, tt, bbl, wbl => .done board tt bbl wbl
  | (m, args) :: rest, board, tt, bbl, wbl =>
    match board.play_move m color with
    | none =>
      let bbl' := if color = BLACK then bbl ++ [m] else bbl
      let wbl' := if color = WHITE then wbl ++ [m] else wbl
      negaLoop child color state_code rest board tt bbl' wbl'
    | some b1 =>
      let r := childCall child b1 tt bbl wbl args
      match r.out with
      | .noFuel => .ret .noFuel r.board r.tt bbl wbl
      | .typeError => .ret .typeError r.board r.tt bbl wbl
      | .val none => .ret .typeError r.board r.tt bbl wbl
      | .val (some e) =>
        let b2 := r.board.undo_move m color
        if !e.1 then
          let s := r.tt.store state_code (true, m)
          .ret (.val s.2) b2 s.1 bbl wbl
        else negaLoop child color state_code rest b2 r.tt bbl wbl

/-- The symmetry probe of gtp_connection.py:452-456: hash each transform
with `code_2d` and return the first table hit. -/
def symLookup (tt : TranspositionTable) : List (List (List Nat)) → Option Entry
  | [] => none
  | g :: gs =>
    match tt.lookup (tt.code_2d g) with
    | some r => some r
    | none => symLookup tt gs

/-- The candidate move set of gtp_connection.py:457-466: the board's
empty points with the mover's already-blacklisted points removed
(`empty_points.remove(pt)` for each blacklisted point of the mover's
list; the other color's list is not consulted). -/
def candidatePoints (b : Position) (color : Nat) (bbl wbl : List Nat) : List Nat :=
  let eps0 := b.get_empty_points
  let eps1 := if color = BLACK then eps0.filter (fun p => !bbl.contains p) else eps0
  if color = WHITE then eps1.filter (fun p => !wbl.contains p) else eps1

/-- `negamax(board, tt, bbl, wbl, bneyes, wneyes, beyes, weyes, weight,
HeuristicMode, SymmetryCheck)` of gtp_connection.py:433-510, translated
with a fuel parameter for the recursion (the search always terminates
on a finite board; `noFuel` marks exhausted fuel).  Order of business:
own-fingerprint lookup, symmetry lookup, candidate set = empty points
minus the mover's blacklist, the no-legal-move terminal
`return tt.store(state_code, (False, 0))` — whose value is `None` —
candidate ordering, the candidate loop, and the final losing store. -/
def negamax (H : Heuristic) :
    Nat → Position → TranspositionTable → List Nat → List Nat →
    HS → HS → HS → HS → Option Int → Bool → Bool → NegaRes
  | 0, board, tt, bbl, wbl, _, _, _, _, _, _, _ => ⟨.noFuel, board, tt, bbl, wbl⟩
  | fuel + 1, board, tt, bbl, wbl, bneyes, wneyes, beyes, weyes, weight, hm, sc =>
    let state_code := tt.code board
    match tt.lookup state_code with
    | some ret => ⟨.val (some ret), board, tt, bbl, wbl⟩
    | none =>
      match (if sc then symLookup tt (TTUtil.symmetries (GoBoardUtil.get_twoD_board board))
             else none) with
      | some ret => ⟨.val (some ret), board, tt, bbl, wbl⟩
      | none =>
        let color := board.current_player
        let eps := candidatePoints board color bbl wbl
        if eps.isEmpty then
          let s := tt.store state_code (false, 0)
          ⟨.val s.2, board, s.1, bbl, wbl⟩
        else
          let cands := mkCands H hm board color bneyes wneyes beyes weyes weight eps
          match negaLoop
              (fun b t bb wb a1 a2 a3 a4 w => negamax H fuel b t bb wb a1 a2 a3 a4 w true true)
              color state_code cands board tt bbl wbl with
          | .ret o b t bb wb => ⟨o, b, t, bb, wb⟩
          | .done b t bb wb =>
            let s := t.store state_code (false, 0)
            ⟨.val s.2, b, s.1, bb, wb⟩

/-- Outcome of one `solve` command: a written response (winner color and
the move field, `0` meaning no move), an uncaught exception escaping
`solve`, or the embedding's out-of-fuel marker. -/
inductive SolveOut where
  | response : Nat → Nat → SolveOut
  | crash : SolveOut
  | noFuel : SolveOut
deriving DecidableEq, Repr

/-- `GtpConnection.solve` of gtp_connection.py:254-279 on the path where
no timeout fires: build a fresh table from freshly drawn constants
(`zob`), search a copy of the live board, unpack `win, move = solution`
— a `None` solution raises an uncaught TypeError, as does a propagating
TypeError from `negamax` — and respond with the winner (the opponent on
a loss) and the move.  `dbbl`/`dwbl` are the current contents of
`negamax`'s mutable default blacklist arguments, which a plain
`negamax(board_copy, tt)` call binds. -/
def solveCmd (H : Heuristic) (fuel : Nat) (zob : List Nat) (live : Position)
    (dbbl dwbl : List Nat) : SolveOut :=
  let color := live.current_player
  let tt : TranspositionTable := ⟨live.size, zob, []⟩
  let board_copy := live
  let r := negamax H fuel board_copy tt dbbl dwbl [] [] [] [] none true true
  match r.out with
  | .noFuel => .noFuel
  | .typeError => .crash
  | .val none => .crash
  | .val (some (win, move)) =>
    let winner := if win then color else GoBoardUtil.opponent color
    .response winner move

/-- The contents of `negamax`'s default `bbl`/`wbl` list objects after
one top-level `negamax(board, tt)` call: Python evaluates the default
lists once at function definition, a defaulted call binds those very
objects, and the root frame's `bbl.append`/`wbl.append` mutate them in
place — so the pair returned here is what the next defaulted call will
start from. -/
def defaultBlacklistsAfter (H : Heuristic) (fuel : Nat) (zob : List Nat) (b : Position)
    (dflt : List Nat × List Nat) : List Nat × List Nat :=
  let r := negamax H fuel b ⟨b.size, zob, []⟩ dflt.1 dflt.2 [] [] [] [] none true true
  (r.bbl, r.wbl)

/-- A concrete heuristic instance (constant score 0, empty carry
state), used to evaluate the solver on concrete inputs. -/
def H0 : Heuristic :=
  ⟨fun _ _ => (0, [], [], [], []), fun _ _ _ _ _ _ _ _ => (0, [], [], [], [])⟩

/-- Size-1 board whose single cell holds a black stone; white to move:
the candidate set is empty. -/
def board1Full : Position := ⟨1, [BLACK], WHITE⟩

/-- A fresh size-1 transposition table with constant 1. -/
def tt1 : TranspositionTable := ⟨1, [1], []⟩

/-- The empty 2x2 board, black to move. -/
def empty2 : Position := ⟨2, [EMPTY, EMPTY, EMPTY, EMPTY], BLACK⟩

/-- 2x2 board with white stones at (1,2) and (2,1), black to move: both
empty cells are suicides for black. -/
def bw2 : Position := ⟨2, [EMPTY, WHITE, WHITE, EMPTY], BLACK⟩

/-- A fresh size-2 table with injective constants 1, 4, 16, 64. -/
def tt2 : TranspositionTable := ⟨2, [1, 4, 16, 64], []⟩

/-- Size-2 board with one black stone at (1,1), white to move. -/
def b2one : Position := ⟨2, [BLACK, EMPTY, EMPTY, EMPTY], WHITE⟩

/-- A size-2 table holding an entry only for the rotated image of
`b2one` (black at (1,2), code 4): own-code lookup misses, the symmetry
probe hits.  Move 99 is not a point of the querying orientation. -/
def ttSym : TranspositionTable := ⟨2, [1, 4, 16, 64], [(4, (true, 99))]⟩

/-- C4: `TranspositionTable.store(code, data)` records the entry in the
table — a following `lookup(code)` finds it — but the Python function
body has no return statement, so the call itself evaluates to `None`,
not to the stored entry; a call site using the store call as its own
return value obtains `None`, not the `(isWin, move)` pair. -/
theorem store_updates_table_but_returns_none :
    ∀ (tt : TranspositionTable) (code : Nat) (data : Entry),
      (tt.store code data).2 = none
      ∧ TranspositionTable.lookup (tt.store code data).1 code = some data := by
  refine fun tt code data => ⟨rfl, ?_⟩
  simp [TranspositionTable.lookup, TranspositionTable.store]

/-- C5 counterexample: with a fresh table, after `store(0, (False, 0))`
a second `store(0, (True, 5))` makes `lookup(0)` return `(True, 5)` —
the second store replaced the first entry, so lookup no longer returns
the first-stored `(False, 0)`. -/
theorem store_overwrite_counterexample :
    TranspositionTable.lookup ((tt2.store 0 (false, 0)).1.store 0 (true, 5)).1 0
      = some (true, 5) := by decide

/-- C5 amended: entries are not write-once — `store` is a plain
dictionary assignment, so a subsequent `store(code, B)` replaces the
entry and `lookup(code)` returns `B` (last write wins). -/
theorem store_last_write_wins :
    ∀ (tt : TranspositionTable) (c : Nat) (A B : Entry),
      TranspositionTable.lookup ((tt.store c A).1.store c B).1 c = some B := by
  intro tt c A B
  simp [TranspositionTable.lookup, TranspositionTable.store]

/-- C1: on a position with no candidate moves (size-1 board, its only
cell occupied, white to move, fresh table), `negamax` stores
`(False, 0)` under the position's fingerprint (code 1), but the value
it returns to its caller is the `None` produced by `tt.store`, not the
entry `(False, 0)`; the board and blacklists are untouched. -/
theorem negamax_terminal_stores_and_returns_none :
    negamax H0 3 board1Full tt1 [] [] [] [] [] [] none true true
      = ⟨NOut.val none, board1Full, ⟨1, [1], [(1, (false, 0))]⟩, [], []⟩ := by
  decide

/-- C3: on the empty 2x2 board (black to move, fresh table with
constants 1, 4, 16, 64), the search plays black (1,1), white (1,2) and
black (2,1); the deepest frame returns the `None` produced by
`tt.store`, the caller's `negamax(...)[0]` raises TypeError between its
`play_move` and its `undo_move`, and the exception unwinds every frame
— `negamax` exits on the TypeError path with all three stones still on
the board instead of restoring its pre-call state. -/
theorem negamax_board_not_restored_on_crash :
    negamax H0 10 empty2 tt2 [] [] [] [] [] [] none true true
      = ⟨NOut.typeError, ⟨2, [BLACK, WHITE, BLACK, EMPTY], WHITE⟩,
         ⟨2, [1, 4, 16, 64], [(25, (false, 0))]⟩, [], []⟩ := by
  decide

/-- C6: `negamax`'s blacklist parameters default to mutable lists
created once at function definition; a top-level call
`negamax(board, tt)` binds those very objects and the root frame's
`bbl.append` mutates them in place.  On the 2x2 board with white
stones at (1,2) and (2,1) (black to move), both root candidates are
suicides, so after one defaulted top-level call the default black
blacklist holds points 4 and 8 — the next top-level request starts
from `([4, 8], [])`, not from empty blacklists. -/
theorem default_blacklists_persist_across_requests :
    defaultBlacklistsAfter H0 10 [1, 4, 16, 64] bw2 ([], []) = ([4, 8], []) := by
  decide

/-- Lookup in a table whose dictionary is empty always misses. -/
theorem lookup_nil (n : Nat) (z : List Nat) (c : Nat) :
    TranspositionTable.lookup ⟨n, z, []⟩ c = none := rfl

/-- The symmetry probe over a table with an empty dictionary misses on
every transform. -/
theorem symLookup_nil (n : Nat) (z : List Nat) :
    ∀ gs : List (List (List Nat)), symLookup ⟨n, z, []⟩ gs = none := by
  intro gs
  induction gs with
  | nil => rfl
  | cons g gs ih => simp [symLookup, lookup_nil, ih]

/-- The candidate loop can never return a cached entry as its value: its
early returns are fuel exhaustion, the TypeError raised on a `None`
child result, a propagating child TypeError, or the value of
`tt.store(state_code, (True, move))` — which is `None`. -/
theorem negaLoop_no_entry
    (child : Position → TranspositionTable → List Nat → List Nat →
      HS → HS → HS → HS → Option Int → NegaRes)
    (color sc0 : Nat) :
    ∀ (cands : List Cand) (b : Position) (tt : TranspositionTable) (bbl wbl : List Nat)
      (e : Entry) (b' : Position) (t' : TranspositionTable) (bb wb : List Nat),
      negaLoop child color sc0 cands b tt bbl wbl
        = LoopRes.ret (NOut.val (some e)) b' t' bb wb → False := by
  intro cands
  induction cands with
  | nil =>
    intro b tt bbl wbl e b' t' bb wb h
    simp [negaLoop] at h
  | cons cand rest ih =>
    obtain ⟨m, args⟩ := cand
    intro b tt bbl wbl e b' t' bb wb h
    simp only [negaLoop] at h
    split at h
    · exact ih _ _ _ _ _ _ _ _ _ h
    · split at h
      · simp at h
      · simp at h
      · simp at h
      · split at h
        · simp [TranspositionTable.store] at h
        · exact ih _ _ _ _ _ _ _ _ _ h

/-- A `negamax` call on a table with an empty dictionary — always the
case for the top-level call of one solve/genmove request, which builds
a fresh table — never produces a cached entry as its value: it runs out
of fuel, raises TypeError, or returns the `None` produced by
`tt.store`. -/
theorem negamax_fresh_table_out (H : Heuristic) (fuel : Nat) (b : Position)
    (n : Nat) (z : List Nat) (bbl wbl : List Nat) (s1 s2 s3 s4 : HS)
    (w : Option Int) (hm sc : Bool) :
    (negamax H fuel b ⟨n, z, []⟩ bbl wbl s1 s2 s3 s4 w hm sc).out = NOut.noFuel
    ∨ (negamax H fuel b ⟨n, z, []⟩ bbl wbl s1 s2 s3 s4 w hm sc).out = NOut.typeError
    ∨ (negamax H fuel b ⟨n, z, []⟩ bbl wbl s1 s2 s3 s4 w hm sc).out = NOut.val none := by
  cases fuel with
  | zero => exact Or.inl rfl
  | succ fuel =>
    simp only [negamax, lookup_nil, symLookup_nil, ite_self]
    split
    · exact Or.inr (Or.inr rfl)
    · split
      case _ o b1 t1 bb wb heq =>
        cases o with
        | val v =>
          cases v with
          | none => exact Or.inr (Or.inr rfl)
          | some e => exact (negaLoop_no_entry _ _ _ _ _ _ _ _ _ _ _ _ _ heq).elim
        | typeError => exact Or.inr (Or.inl rfl)
        | noFuel => exact Or.inl rfl
      case _ => exact Or.inr (Or.inr rfl)

/-- C2: because `TranspositionTable.store` returns `None`, a completed
(non-timeout) `solve` never writes a response at all: the top-level
`negamax` on the request's fresh table either propagates a TypeError or
returns `None`, and `win, move = solution` then raises TypeError itself
— for every board, every draw of Zobrist constants and every starting
state of the default blacklists, `solve` ends in an uncaught exception
(or, in the embedding only, out of fuel), never in a response. -/
theorem solve_writes_no_response :
    ∀ (H : Heuristic) (fuel : Nat) (zob : List Nat) (live : Position)
      (dbbl dwbl : List Nat),
      solveCmd H fuel zob live dbbl dwbl = SolveOut.crash
      ∨ solveCmd H fuel zob live dbbl dwbl = SolveOut.noFuel := by
  intro H fuel zob live dbbl dwbl
  have h := negamax_fresh_table_out H fuel live live.size zob dbbl dwbl [] [] [] [] none true true
  rcases h with h | h | h <;> simp [solveCmd, h]

/-- C7: if a position's own fingerprint misses the table but the
symmetry probe over the 8 dihedral transforms of its 2D grid hits,
`negamax` returns the cached `(isWin, move)` entry verbatim — board,
table and blacklists untouched, and the stored move not inverse-mapped
into the querying orientation. -/
theorem negamax_symmetry_hit_returned_verbatim :
    ∀ (H : Heuristic) (fuel : Nat) (b : Position) (tt : TranspositionTable)
      (bbl wbl : List Nat) (s1 s2 s3 s4 : HS) (w : Option Int) (hm : Bool) (e : Entry),
      tt.lookup (tt.code b) = none →
      symLookup tt (TTUtil.symmetries (GoBoardUtil.get_twoD_board b)) = some e →
      (TTUtil.symmetries (GoBoardUtil.get_twoD_board b)).length = 8
      ∧ negamax H (fuel + 1) b tt bbl wbl s1 s2 s3 s4 w hm true
          = ⟨NOut.val (some e), b, tt, bbl, wbl⟩ := by
  intro H fuel b tt bbl wbl s1 s2 s3 s4 w hm e h1 h2
  refine ⟨rfl, ?_⟩
  simp only [negamax, h1, if_true, h2]

/-- C7 witness: black stone at (1,1) on a 2x2 board; the table holds an
entry only under code 4 — the fingerprint of the rotated image with
the stone at (1,2) — mapping to `(True, 99)`.  The own-code lookup
(code 1) misses, the symmetry probe hits, and `negamax` returns
`(True, 99)` with the foreign move 99 unmapped. -/
theorem negamax_symmetry_hit_returned_verbatim_w :
    (TTUtil.symmetries (GoBoardUtil.get_twoD_board b2one)).length = 8
    ∧ negamax H0 (4 + 1) b2one ttSym [] [] [] [] [] [] none true true
        = ⟨NOut.val (some (true, 99)), b2one, ttSym, [], []⟩ :=
  negamax_symmetry_hit_returned_verbatim H0 4 b2one ttSym [] [] [] [] [] [] none true
    (true, 99) (by decide) (by decide)

/-- Folding a function that fixes every accumulator over its list leaves
the accumulator unchanged. -/
theorem foldl_keep {α β : Type} (l : List β) (f : α → β → α)
    (h : ∀ a x, x ∈ l → f a x = a) : ∀ a, l.foldl f a = a := by
  induction l with
  | nil => intro a; rfl
  | cons x xs ih =>
    intro a
    rw [List.foldl_cons, h a x (List.mem_cons_self x xs)]
    exact ih (fun a y hy => h a y (List.mem_cons_of_mem x hy)) a

/-- Two folds agree when the step functions agree on the list's
members. -/
theorem foldl_congr_mem {α β : Type} (l : List β) (f g : α → β → α)
    (h : ∀ a x, x ∈ l → f a x = g a x) : ∀ a, l.foldl f a = l.foldl g a := by
  induction l with
  | nil => intro a; rfl
  | cons x xs ih =>
    intro a
    rw [List.foldl_cons, List.foldl_cons, h a x (List.mem_cons_self x xs)]
    exact ih (fun a y hy => h a y (List.mem_cons_of_mem x hy)) _

/-- Reading a mapped range at an in-range index. -/
theorem getD_map_range {α : Type} (f : Nat → α) (n i : Nat) (d : α) (h : i < n) :
    ((List.range n).map f).getD i d = f i := by
  rw [List.getD_eq_getElem?_getD, List.getElem?_map, List.getElem?_range h]
  rfl

/-- The color scanned by the hasher at `board.pt(i+1, j+1)` is the
interior cell `(i, j)`. -/
theorem get_color_pt (b : Position) (i j : Nat) (hi : i < b.size) (hj : j < b.size) :
    b.get_color (b.pt (i + 1) (j + 1)) = b.colorAt1 i j := by
  have hns : b.pt (i + 1) (j + 1) = (j + 1) + (b.size + 1) * (i + 1) := by
    simp [Position.pt, coord_to_point]; ring
  have hdiv : b.pt (i + 1) (j + 1) / (b.size + 1) = i + 1 := by
    rw [hns, Nat.add_mul_div_left _ _ (Nat.succ_pos b.size), Nat.div_eq_of_lt (by omega)]
    omega
  have hmod : b.pt (i + 1) (j + 1) % (b.size + 1) = j + 1 := by
    rw [hns, Nat.add_mul_mod_self_left, Nat.mod_eq_of_lt (by omega)]
  simp only [Position.get_color, hdiv, hmod]
  rw [if_pos (by omega)]
  simp

/-- C8: with a table built for the board's size, the Position-form
fingerprint `code(board)` and the 2D-grid-form fingerprint
`code_2d(get_twoD_board(board))` agree bit for bit on the same stone
layout; and the fingerprint is reproducible within the table's lifetime
— storing entries does not change `code`, which reads only the fixed
per-cell constants. -/
theorem code_agrees_with_code_2d :
    ∀ (tt : TranspositionTable) (b : Position), tt.board_size = b.size →
      tt.code b = tt.code_2d (GoBoardUtil.get_twoD_board b)
      ∧ ∀ (c : Nat) (e : Entry),
          TranspositionTable.code (tt.store c e).1 b = tt.code b := by
  intro tt b h
  constructor
  · unfold TranspositionTable.code TranspositionTable.code_2d
    apply foldl_congr_mem
    intro a i himem
    have hi : i < b.size := h ▸ List.mem_range.mp himem
    apply foldl_congr_mem
    intro c j hjmem
    have hj : j < b.size := h ▸ List.mem_range.mp hjmem
    have h2 : ((GoBoardUtil.get_twoD_board b).getD i []).getD j EMPTY = b.colorAt1 i j := by
      unfold GoBoardUtil.get_twoD_board
      rw [getD_map_range _ _ _ _ hi, getD_map_range _ _ _ _ hj]
    rw [get_color_pt b i j hi hj, h2]
  · intro c e
    rfl

/-- C8 witness: the size-2 table with constants 1, 4, 16, 64 and the
board with one black stone agree between the two fingerprint forms,
and a store leaves the fingerprint unchanged. -/
theorem code_agrees_with_code_2d_w :
    tt2.code b2one = tt2.code_2d (GoBoardUtil.get_twoD_board b2one)
    ∧ ∀ (c : Nat) (e : Entry),
        TranspositionTable.code (tt2.store c e).1 b2one = tt2.code b2one :=
  code_agrees_with_code_2d tt2 b2one rfl

/-- C10: the fingerprint of a board with no stones — every scanned cell
EMPTY or BORDER — is exactly 0, for every board size and every draw of
the per-cell constants (so a fully-empty position is keyed under 0);
and the fingerprint reads only the grid, never whose turn it is. -/
theorem code_empty_board_zero_and_turn_independent :
    ∀ (tt : TranspositionTable) (b : Position),
      ((∀ i ∈ List.range tt.board_size, ∀ j ∈ List.range tt.board_size,
          b.get_color (b.pt (i + 1) (j + 1)) = EMPTY
          ∨ b.get_color (b.pt (i + 1) (j + 1)) = BORDER) →
        tt.code b = 0)
      ∧ ∀ p : Nat, tt.code ⟨b.size, b.grid, p⟩ = tt.code b := by
  intro tt b
  constructor
  · intro hnb
    unfold TranspositionTable.code
    apply foldl_keep
    intro a i hi
    apply foldl_keep
    intro c j hj
    rcases hnb i hi j hj with h | h <;> rw [h] <;> simp [EMPTY, BORDER]
  · intro p
    rfl

/-- C10 witness: on the empty 2x2 board with constants 1, 4, 16, 64 the
fingerprint is 0, and flipping the player to move leaves it 0. -/
theorem code_empty_board_zero_and_turn_independent_w :
    tt2.code empty2 = 0 ∧ tt2.code ⟨empty2.size, empty2.grid, WHITE⟩ = tt2.code empty2 :=
  ⟨(code_empty_board_zero_and_turn_independent tt2 empty2).1 (by decide),
   (code_empty_board_zero_and_turn_independent tt2 empty2).2 WHITE⟩

/-- Membership in an insertion step. -/
theorem mem_insertDesc (x : ScoredCand) :
    ∀ (l : List ScoredCand) (z : ScoredCand), z ∈ insertDesc x l ↔ z = x ∨ z ∈ l := by
  intro l
  induction l with
  | nil => intro z; simp [insertDesc]
  | cons y ys ih =>
    intro z
    by_cases h : x.2.1 < y.2.1
    · simp only [insertDesc, if_pos h, List.mem_cons, ih]
      tauto
    · simp only [insertDesc, if_neg h, List.mem_cons]

/-- An insertion step preserves the non-increasing-score invariant. -/
theorem pairwise_insertDesc (x : ScoredCand) :
    ∀ l : List ScoredCand,
      List.Pairwise (fun u v : ScoredCand => v.2.1 ≤ u.2.1) l →
      List.Pairwise (fun u v : ScoredCand => v.2.1 ≤ u.2.1) (insertDesc x l) := by
  intro l
  induction l with
  | nil => intro _; simp [insertDesc]
  | cons y ys ih =>
    intro hp
    rw [List.pairwise_cons] at hp
    obtain ⟨hy, hys⟩ := hp
    by_cases h : x.2.1 < y.2.1
    · rw [insertDesc, if_pos h, List.pairwise_cons]
      refine ⟨?_, ih hys⟩
      intro z hz
      rcases (mem_insertDesc x ys z).mp hz with rfl | hz'
      · exact le_of_lt h
      · exact hy z hz'
    · rw [insertDesc, if_neg h, List.pairwise_cons]
      refine ⟨?_, List.pairwise_cons.mpr ⟨hy, hys⟩⟩
      intro z hz
      rcases List.mem_cons.mp hz with rfl | hz'
      · omega
      · have := hy z hz'
        omega

/-- `sortCands` output has non-increasing scores. -/
theorem pairwise_sortCands :
    ∀ l : List ScoredCand,
      List.Pairwise (fun u v : ScoredCand => v.2.1 ≤ u.2.1) (sortCands l) := by
  intro l
  induction l with
  | nil => simp [sortCands]
  | cons x xs ih => exact pairwise_insertDesc x _ ih

/-- An insertion step is a permutation step. -/
theorem perm_insertDesc (x : ScoredCand) :
    ∀ l : List ScoredCand, (insertDesc x l).Perm (x :: l) := by
  intro l
  induction l with
  | nil => simp [insertDesc]
  | cons y ys ih =>
    by_cases h : x.2.1 < y.2.1
    · rw [insertDesc, if_pos h]
      exact (ih.cons y).trans (List.Perm.swap x y ys)
    · rw [insertDesc, if_neg h]

/-- `sortCands` permutes its input. -/
theorem perm_sortCands : ∀ l : List ScoredCand, (sortCands l).Perm l := by
  intro l
  induction l with
  | nil => simp [sortCands]
  | cons x xs ih => exact (perm_insertDesc x (sortCands xs)).trans (ih.cons x)

/-- Inserting an element of a different score does not disturb the
subsequence of a given score. -/
theorem filter_insertDesc_ne (s : Int) (x : ScoredCand) (hx : (x.2.1 == s) = false) :
    ∀ l : List ScoredCand,
      (insertDesc x l).filter (fun c => c.2.1 == s) = l.filter (fun c => c.2.1 == s) := by
  intro l
  induction l with
  | nil => simp [insertDesc, hx]
  | cons y ys ih =>
    by_cases h : x.2.1 < y.2.1
    · rw [insertDesc, if_pos h]
      rw [List.filter_cons, List.filter_cons]
      rw [ih]
    · rw [insertDesc, if_neg h, List.filter_cons, hx]
      simp

/-- Inserting an element of score `s` prepends it to the subsequence of
score `s`: every element it jumps over has a strictly larger score. -/
theorem filter_insertDesc_pos (s : Int) (x : ScoredCand) (hx : (x.2.1 == s) = true) :
    ∀ l : List ScoredCand,
      (insertDesc x l).filter (fun c => c.2.1 == s)
        = x :: l.filter (fun c => c.2.1 == s) := by
  intro l
  induction l with
  | nil => simp [insertDesc, hx]
  | cons y ys ih =>
    by_cases h : x.2.1 < y.2.1
    · have hy : (y.2.1 == s) = false := by
        have hxs : x.2.1 = s := by simpa using hx
        have : y.2.1 ≠ s := by omega
        simpa using this
      rw [insertDesc, if_pos h, List.filter_cons, hy]
      simp only [ite_false, Bool.false_eq_true]
      rw [ih, List.filter_cons, hy]
      simp
    · rw [insertDesc, if_neg h, List.filter_cons, hx]
      simp

/-- The stable sort preserves the relative order of equal-score
candidates: filtering any score gives the original subsequence. -/
theorem filter_sortCands (s : Int) :
    ∀ l : List ScoredCand,
      (sortCands l).filter (fun c => c.2.1 == s) = l.filter (fun c => c.2.1 == s) := by
  intro l
  induction l with
  | nil => rfl
  | cons x xs ih =>
    by_cases hx : (x.2.1 == s) = true
    · rw [sortCands, filter_insertDesc_pos s x hx _, ih, List.filter_cons, hx]
      simp
    · have hx' : (x.2.1 == s) = false := by simpa using hx
      rw [sortCands, filter_insertDesc_ne s x hx' _, ih, List.filter_cons, hx']
      simp

/-- C9: in heuristic mode the candidate list handed to the search loop
is the scored enumeration stable-sorted by non-increasing score — the
sort is a permutation, scores are pairwise non-increasing, and equal
scores keep their original enumeration order; with heuristic mode
disabled the loop receives the empty-point enumeration order
unchanged. -/
theorem heuristic_move_ordering :
    ∀ (H : Heuristic) (b : Position) (color : Nat) (w : Int) (s1 s2 s3 s4 : HS)
      (eps : List Nat),
      List.Pairwise (fun u v : ScoredCand => v.2.1 ≤ u.2.1)
        (sortCands (scoreCands H b color w s1 s2 s3 s4 eps))
      ∧ (∀ s : Int,
          (sortCands (scoreCands H b color w s1 s2 s3 s4 eps)).filter (fun c => c.2.1 == s)
            = (scoreCands H b color w s1 s2 s3 s4 eps).filter (fun c => c.2.1 == s))
      ∧ (sortCands (scoreCands H b color w s1 s2 s3 s4 eps)).Perm
          (scoreCands H b color w s1 s2 s3 s4 eps)
      ∧ mkCands H true b color s1 s2 s3 s4 (some w) eps
          = (sortCands (scoreCands H b color w s1 s2 s3 s4 eps)).map
              (fun x => (x.1, some x.2))
      ∧ (mkCands H false b color s1 s2 s3 s4 (some w) eps).map Prod.fst = eps := by
  intro H b color w s1 s2 s3 s4 eps
  refine ⟨pairwise_sortCands _, fun s => filter_sortCands s _, perm_sortCands _, rfl, ?_⟩
  simp only [mkCands, if_neg Bool.false_ne_true, List.map_map]
  induction eps with
  | nil => rfl
  | cons m ms ih => simp [ih]
